import Mathlib

/-!
Verification of the backboard reconciliation and incremental-sync engine.

This file is a shallow embedding of the Go sources (backboard.go, server.go
and the unnamed main/sync file).  Byte strings (Go `[]byte`, including the
`sha` type and map keys derived from them) are modelled as `List Nat` with
each element a byte value; Go strings are modelled as Lean `String` and
converted to UTF-8 bytes where the Go code hashes them; Go `time.Time`
values are modelled as `Int` (only equality of timestamps is ever used);
Go maps are modelled as functions returning `Option` values (a missing key
yields `none`, matching Go's zero-value semantics for pointer-valued maps);
nil-able pointers are modelled as `Option`.
-/

/-! ## SHA-1 (crypto/sha1), used by commit.MessageID -/

/-- 32-bit left rotation on byte-bounded naturals, mod 2^32. -/
def rotl32 (n x : Nat) : Nat :=
  ((x <<< n) ||| (x >>> (32 - n))) % 4294967296

/-- Big-endian 32-bit word from four bytes. -/
def word32 (b0 b1 b2 b3 : Nat) : Nat :=
  ((b0 * 256 + b1) * 256 + b2) * 256 + b3

/-- The sixteen big-endian words of one 64-byte block. -/
def blockWords (block : List Nat) : List Nat :=
  (List.range 16).map fun i =>
    word32 (block.getD (4 * i) 0) (block.getD (4 * i + 1) 0)
      (block.getD (4 * i + 2) 0) (block.getD (4 * i + 3) 0)

/-- Message-schedule expansion from 16 to 80 words. -/
def sha1Extend (ws : List Nat) : List Nat :=
  (List.range 64).foldl
    (fun acc _ =>
      let n := acc.length
      acc ++ [rotl32 1 ((acc.getD (n - 3) 0 ^^^ acc.getD (n - 8) 0) ^^^
        (acc.getD (n - 14) 0 ^^^ acc.getD (n - 16) 0))])
    ws

/-- Round function of SHA-1. -/
def sha1F (t b c d : Nat) : Nat :=
  if t < 20 then (b &&& c) ||| ((b ^^^ 4294967295) &&& d)
  else if t < 40 then (b ^^^ c) ^^^ d
  else if t < 60 then ((b &&& c) ||| (b &&& d)) ||| (c &&& d)
  else (b ^^^ c) ^^^ d

/-- Round constants of SHA-1. -/
def sha1K (t : Nat) : Nat :=
  if t < 20 then 1518500249
  else if t < 40 then 1859775393
  else if t < 60 then 2400959708
  else 3395469782

/-- Compression of one 64-byte block into the running five-word state. -/
def sha1Compress (h : List Nat) (block : List Nat) : List Nat :=
  let ws := sha1Extend (blockWords block)
  let s := (List.range 80).foldl
    (fun (s : Nat × Nat × Nat × Nat × Nat) t =>
      let a := s.1
      let b := s.2.1
      let c := s.2.2.1
      let d := s.2.2.2.1
      let e := s.2.2.2.2
      let temp := (rotl32 5 a + sha1F t b c d + e + sha1K t + ws.getD t 0) % 4294967296
      (temp, a, rotl32 30 b, c, d))
    (h.getD 0 0, h.getD 1 0, h.getD 2 0, h.getD 3 0, h.getD 4 0)
  [(h.getD 0 0 + s.1) % 4294967296,
   (h.getD 1 0 + s.2.1) % 4294967296,
   (h.getD 2 0 + s.2.2.1) % 4294967296,
   (h.getD 3 0 + s.2.2.2.1) % 4294967296,
   (h.getD 4 0 + s.2.2.2.2) % 4294967296]

/-- Split a byte list into 64-byte chunks; the first argument is fuel
(structural recursion so that the definition reduces by computation), always
called with fuel at least the list length. -/
def chunksAux : Nat → List Nat → List (List Nat)
  | 0, _ => []
  | _, [] => []
  | fuel + 1, b :: rest => (b :: rest).take 64 :: chunksAux fuel ((b :: rest).drop 64)

/-- Split a byte list into 64-byte chunks. -/
def chunks64 (l : List Nat) : List (List Nat) :=
  chunksAux l.length l

/-- The eight big-endian bytes of a 64-bit value. -/
def beBytes8 (n : Nat) : List Nat :=
  (List.range 8).map fun i => (n >>> (8 * (7 - i))) % 256

/-- Merkle-Damgard padding of SHA-1: 0x80, zeros, 64-bit big-endian bit length. -/
def sha1Pad (msg : List Nat) : List Nat :=
  msg ++ [128] ++ List.replicate ((119 - msg.length % 64) % 64) 0 ++ beBytes8 (msg.length * 8)

/-- SHA-1 digest (20 bytes) of a byte list. -/
def sha1 (msg : List Nat) : List Nat :=
  let hs := (chunks64 (sha1Pad msg)).foldl sha1Compress
    [1732584193, 4023233417, 2562383102, 271733878, 3285377520]
  (hs.map fun w => [(w >>> 24) % 256, (w >>> 16) % 256, (w >>> 8) % 256, w % 256]).flatten

/-- UTF-8 encoding of one code point. -/
def utf8Char (n : Nat) : List Nat :=
  if n < 128 then [n]
  else if n < 2048 then [192 ||| (n >>> 6), 128 ||| (n % 64)]
  else if n < 65536 then
    [224 ||| (n >>> 12), 128 ||| ((n >>> 6) % 64), 128 ||| (n % 64)]
  else
    [240 ||| (n >>> 18), 128 ||| ((n >>> 12) % 64), 128 ||| ((n >>> 6) % 64), 128 ||| (n % 64)]

/-- The UTF-8 bytes of a string (Go strings are byte slices holding UTF-8). -/
def strBytes (s : String) : List Nat :=
  (s.data.map fun c => utf8Char c.toNat).flatten

/-! ## Commit records and the commit index (type `commits` in the Go source) -/

/-- The `user` struct: an author identified by email. -/
structure User where
  Email : String
deriving DecidableEq, Repr

/-- The `commit` struct.  The `sha` field is the 20-byte hash identity. -/
structure Commit where
  sha : List Nat
  commitDate : Int
  author : User
  title : String
  body : String
  merge : Bool
deriving DecidableEq, Repr

/-- `commit.MessageID`: the content fingerprint, a SHA-1 over the UTF-8
bytes of the title followed by the bytes of the body (the Go code writes
`c.title` then `c.body` into one `sha1.New()` hash). -/
def messageID (c : Commit) : List Nat :=
  sha1 (strBytes c.title ++ strBytes c.body)

/-- The `commits` struct: an ordered sequence with SHA- and fingerprint-keyed
membership.  The Go `map[string]struct{}` sets are modelled as lists whose
only observable is membership. -/
structure Commits where
  commits : List Commit
  shas : List (List Nat)
  messageIDs : List (List Nat)
deriving DecidableEq, Repr

/-- The empty commit index (`commits{}`). -/
def Commits.empty : Commits := ⟨[], [], []⟩

/-- `(*commits).insert`: append the record and register it under its hash
identity and its content fingerprint. -/
def Commits.insert (cs : Commits) (c : Commit) : Commits :=
  { commits := cs.commits ++ [c],
    shas := cs.shas ++ [c.sha],
    messageIDs := cs.messageIDs ++ [messageID c] }

/-- Hash-keyed membership (`_, ok := cs.shas[string(sha)]`). -/
def Commits.containsSHA (cs : Commits) (h : List Nat) : Bool :=
  cs.shas.contains h

/-- Fingerprint-keyed membership (`_, ok := cs.messageIDs[mid]`). -/
def Commits.containsMessageID (cs : Commits) (m : List Nat) : Bool :=
  cs.messageIDs.contains m

/-- The loop body of `commits.truncate`: walk the ordered sequence, stop at
the first record whose hash equals the marker, drop merge commits. -/
def truncGo (marker : List Nat) : List Commit → List Commit
  | [] => []
  | c :: rest =>
    if c.sha == marker then []
    else if c.merge then truncGo marker rest
    else c :: truncGo marker rest

/-- `commits.truncate`. -/
def Commits.truncate (cs : Commits) (marker : List Nat) : List Commit :=
  truncGo marker cs.commits

/-! ## Lemmas about the commit index -/

/-- Unfolding lemma for truncGo as takeWhile-then-filter. -/
theorem truncGo_eq_takeWhile_filter (marker : List Nat) (l : List Commit) :
    truncGo marker l =
      (l.takeWhile fun c => !(c.sha == marker)).filter fun c => !c.merge := by
  induction l with
  | nil => rfl
  | cons c rest ih =>
    by_cases h : c.sha = marker
    · simp [truncGo, h, List.takeWhile]
    · have hb : (c.sha == marker) = false := by simpa using h
      by_cases hm : c.merge
      · simp [truncGo, hb, hm, List.takeWhile, ih]
      · simp [truncGo, hb, hm, List.takeWhile, ih]

/-- If the marker is absent, takeWhile keeps the whole list. -/
theorem truncGo_of_absent (marker : List Nat) (l : List Commit)
    (h : ∀ c ∈ l, c.sha ≠ marker) :
    truncGo marker l = l.filter fun c => !c.merge := by
  induction l with
  | nil => rfl
  | cons c rest ih =>
    have hc : c.sha ≠ marker := h c (by simp)
    have hb : (c.sha == marker) = false := by simpa using hc
    have ih2 := ih fun c hm => h c (by simp [hm])
    by_cases hm : c.merge
    · simp [truncGo, hb, hm, ih2]
    · simp [truncGo, hb, hm, ih2]

/-- Well-formedness of a commit index: every commit of the ordered sequence
is registered under its hash and under its fingerprint. -/
def Commits.wf (cs : Commits) : Prop :=
  ∀ c ∈ cs.commits,
    cs.containsSHA c.sha = true ∧ cs.containsMessageID (messageID c) = true

/-- C3: for every commit index and marker hash, truncate returns the prefix
of the ordered commit sequence ending strictly before the first commit whose
hash equals the marker, with all merge commits filtered out; if no commit
has the marker hash it returns the entire sequence with merge commits
filtered out. -/
theorem C3_truncate_spec (cs : Commits) (marker : List Nat) :
    cs.truncate marker =
      ((cs.commits.takeWhile fun c => !(c.sha == marker)).filter fun c => !c.merge) ∧
    ((∀ c ∈ cs.commits, c.sha ≠ marker) →
      cs.truncate marker = cs.commits.filter fun c => !c.merge) := by
  constructor
  · exact truncGo_eq_takeWhile_filter marker cs.commits
  · intro h
    exact truncGo_of_absent marker cs.commits h

/-- Concrete instantiation of C3_truncate_spec: a two-commit index with an
absent marker, where the merge commit is filtered from the full sequence. -/
theorem C3_truncate_spec_witness :
    (Commits.truncate ⟨[⟨[1], 0, ⟨"a"⟩, "t1", "", false⟩, ⟨[2], 0, ⟨"a"⟩, "t2", "", true⟩],
        [[1], [2]], []⟩ [9] =
      List.filter (fun c => !c.merge)
        [⟨[1], 0, ⟨"a"⟩, "t1", "", false⟩, ⟨[2], 0, ⟨"a"⟩, "t2", "", true⟩]) :=
  (C3_truncate_spec _ [9]).2 (by decide)

/-- C10: every insert maintains the commit-index invariant: each commit of
the ordered sequence is found by hash-keyed and by fingerprint-keyed lookup. -/
theorem C10_insert_invariant (cs : Commits) (c : Commit) (h : cs.wf) :
    (cs.insert c).wf := by
  intro c' hc'
  simp only [Commits.insert, List.mem_append, List.mem_singleton] at hc'
  constructor
  · simp only [Commits.containsSHA, Commits.insert]
    rcases hc' with hc' | hc'
    · have := (h c' hc').1
      simp only [Commits.containsSHA] at this
      simp at this
      simp [this]
    · subst hc'
      simp
  · simp only [Commits.containsMessageID, Commits.insert]
    rcases hc' with hc' | hc'
    · have := (h c' hc').2
      simp only [Commits.containsMessageID] at this
      simp at this
      simp [this]
    · subst hc'
      simp

/-- Concrete instantiation of C10_insert_invariant starting from the empty
index. -/
theorem C10_insert_invariant_witness :
    (Commits.empty.insert ⟨[1], 0, ⟨"a"⟩, "t", "b", false⟩).wf :=
  C10_insert_invariant Commits.empty _ (by intro c hc; cases hc)

/-! ## C2: content fingerprints -/

/-- A commit whose title is "ab" and body is "c". -/
def c2A : Commit := ⟨[10], 0, ⟨"x"⟩, "ab", "c", false⟩

/-- A commit whose title is "a" and body is "bc": the title differs from
c2A, yet title and body concatenate to the same byte sequence. -/
def c2B : Commit := ⟨[11], 0, ⟨"x"⟩, "a", "bc", false⟩

/-- C2 counterexample: the fingerprint hashes title and body with no
separator in between, so two commits with different titles (and different
bodies) can carry the same fingerprint whenever title followed by body
yields the same bytes. -/
theorem C2_fingerprint_counterexample :
    messageID c2A = messageID c2B ∧ c2A.title ≠ c2B.title ∧ c2A.body ≠ c2B.body := by
  refine ⟨?_, by decide, by decide⟩
  show sha1 (strBytes "ab" ++ strBytes "c") = sha1 (strBytes "a" ++ strBytes "bc")
  exact congrArg sha1 (by decide)

/-- C2 amended: commits with identical title and body produce equal
fingerprints regardless of hash identity; more generally the fingerprint
depends only on the concatenation of the title bytes and the body bytes, so
a differing title or body guarantees distinct fingerprints only when the
concatenations differ (and up to SHA-1 collisions). -/
theorem C2_fingerprint_amended (c1 c2 : Commit) :
    (c1.title = c2.title → c1.body = c2.body → messageID c1 = messageID c2) ∧
    (strBytes c1.title ++ strBytes c1.body = strBytes c2.title ++ strBytes c2.body →
      messageID c1 = messageID c2) := by
  constructor
  · intro h1 h2
    simp only [messageID, h1, h2]
  · intro h
    simp only [messageID]
    exact congrArg sha1 h

/-- Concrete instantiation of C2_fingerprint_amended at the colliding pair. -/
theorem C2_fingerprint_amended_witness : messageID c2A = messageID c2B :=
  (C2_fingerprint_amended c2A c2B).2 (by decide)

/-! ## The repository snapshot and the reconciliation engine (serveBoard)

A `*pr` pointer obtained from the by-SHA review index is modelled as the
pair of the SHA key it was registered under and the record value: the Go
code builds one fresh `pr` object per index entry, so pointer equality
between two lookups coincides with equality of the keys used (and the value
is determined by the key).  This matters because the span computation in
serveBoard compares `lastMasterPR != masterPR` by pointer. -/

/-- The review-record fields used by the reconciliation engine (`pr`). -/
structure PR where
  number : Int
  merged : Bool
deriving DecidableEq, Repr

/-- A `*pr` from the by-SHA master index: the key it lives under plus the
record (pointer identity = key identity). -/
def MPtr : Type := List Nat × PR
deriving instance DecidableEq, Repr for MPtr

/-- The `repo` snapshot fields read by serveBoard.  The maps
`masterPRs` (keyed by SHA bytes), `branchPRs` (keyed by fingerprint then
base branch) and `branchCommits`/`branchMergeBases` (keyed by branch) are
modelled as functions; a missing key yields `none` or the empty index. -/
structure Repo where
  id : Int
  githubOwner : String
  githubRepo : String
  releaseBranches : List String
  masterCommits : Commits
  branchCommits : String → Commits
  branchMergeBases : String → List Nat
  masterPRs : List Nat → Option PR
  branchPRs : List Nat → String → Option PR

/-- `re.masterPRs[string(c.sha)]`, with the resulting pointer tagged by the
key it was found under. -/
def masterLookup (re : Repo) (c : Commit) : Option MPtr :=
  (re.masterPRs c.sha).map fun p => (c.sha, p)

/-- The backport-status string computed per commit in serveBoard: a check
mark for a merged backport PR, a clock for an open one, and a check mark
whenever the fingerprint appears in the target branch's own commit index. -/
def backportStatusOf (re : Repo) (branch : String) (c : Commit) : String :=
  let bp := re.branchPRs (messageID c) branch
  let s := match bp with
    | some p => if p.merged then "✓" else "◷"
    | none => ""
  if (re.branchCommits branch).messageIDs.contains (messageID c) then "✓" else s

/-- The `acommit` struct built by serveBoard. -/
structure ACommit where
  commit : Commit
  backportStatus : String
  masterPR : Option MPtr
  masterPRRowSpan : Int
  backportPR : Option PR
  backportPRRowSpan : Int
deriving DecidableEq, Repr

/-- The fields of an acommit fixed at append time (everything except the two
retroactively assigned row spans). -/
structure ACore where
  commit : Commit
  backportStatus : String
  masterPR : Option MPtr
  backportPR : Option PR
deriving DecidableEq, Repr

/-- Projection of an acommit to its append-time fields. -/
def ACommit.core (a : ACommit) : ACore :=
  ⟨a.commit, a.backportStatus, a.masterPR, a.backportPR⟩

/-- The append-time fields serveBoard computes for one commit. -/
def coreOf (re : Repo) (branch : String) (c : Commit) : ACore :=
  ⟨c, backportStatusOf re branch c, masterLookup re c, re.branchPRs (messageID c) branch⟩

/-- Replace the element at an index by the image under f (used for the
retroactive row-span assignments `acommits[start].RowSpan = ...`). -/
def modifyAt {α : Type} : List α → Nat → (α → α) → List α
  | [], _, _ => []
  | a :: rest, 0, f => f a :: rest
  | a :: rest, j + 1, f => a :: modifyAt rest j f

/-- The mutable locals of serveBoard's annotation loop.  The `-1` sentinel
of the Go ints masterPRStart/backportPRStart is kept as a negative Int. -/
structure SpanState where
  acommits : List ACommit
  lastMasterPR : Option MPtr
  masterPRStart : Int
  lastBackportPR : Option PR
  backportPRStart : Int
deriving DecidableEq, Repr

/-- Initial loop state. -/
def initSpanState : SpanState := ⟨[], none, -1, none, -1⟩

/-- `masterPR != nil && (lastMasterPR == nil || lastMasterPR.number != masterPR.number)`. -/
def masterIsNew (lastM mp : Option MPtr) : Bool :=
  match mp, lastM with
  | some m, some lm => !(lm.2.number == m.2.number)
  | some _, none => true
  | none, _ => false

/-- The negated condition guarding the start of a new backport span:
`(lastBackportPR == nil && backportPR == nil && lastMasterPR != masterPR) ||
 (lastBackportPR != nil && backportPR != nil && lastBackportPR.number == backportPR.number)`,
where `lastMasterPR != masterPR` is a pointer comparison. -/
def backportKeep (lastM mp : Option MPtr) (lastB bp : Option PR) : Bool :=
  (lastB.isNone && bp.isNone && !(decide (lastM = mp))) ||
  (match lastB, bp with
   | some lb, some b => lb.number == b.number
   | _, _ => false)

/-- The retroactive master row-span assignment performed when a new master
span starts:
`if masterPRStart >= 0 { acommits[masterPRStart].MasterPRRowSpan = i - masterPRStart }`. -/
def stepMasterRows (st : SpanState) (i : Nat) (newM : Bool) : List ACommit :=
  if newM && decide (0 ≤ st.masterPRStart) then
    modifyAt st.acommits st.masterPRStart.toNat
      (fun a => { a with masterPRRowSpan := (i : Int) - st.masterPRStart })
  else st.acommits

/-- The retroactive backport row-span assignment performed when a new
backport span starts:
`if backportPRStart >= 0 { acommits[backportPRStart].BackportPRRowSpan = i - backportPRStart }`. -/
def stepBackportRows (rows : List ACommit) (st : SpanState) (i : Nat) (keep : Bool) :
    List ACommit :=
  if !keep && decide (0 ≤ st.backportPRStart) then
    modifyAt rows st.backportPRStart.toNat
      (fun a => { a with backportPRRowSpan := (i : Int) - st.backportPRStart })
  else rows

/-- One iteration of serveBoard's annotation loop at index i. -/
def annotStep (re : Repo) (branch : String) (i : Nat) (st : SpanState) (c : Commit) :
    SpanState :=
  let mp := masterLookup re c
  let newM := masterIsNew st.lastMasterPR mp
  let ac1 := stepMasterRows st i newM
  let mStart := if newM then (i : Int) else st.masterPRStart
  let lastM := if newM then mp else st.lastMasterPR
  let bp := re.branchPRs (messageID c) branch
  let keep := backportKeep lastM mp st.lastBackportPR bp
  let ac2 := stepBackportRows ac1 st i keep
  let bStart := if !keep then (i : Int) else st.backportPRStart
  let lastB := if !keep then bp else st.lastBackportPR
  { acommits := ac2 ++ [⟨c, backportStatusOf re branch c, mp, 0, bp, 0⟩],
    lastMasterPR := lastM, masterPRStart := mStart,
    lastBackportPR := lastB, backportPRStart := bStart }

/-- serveBoard's annotation loop over the commit list. -/
def annotateLoop (re : Repo) (branch : String) : Nat → SpanState → List Commit → SpanState
  | _, st, [] => st
  | i, st, c :: rest => annotateLoop re branch (i + 1) (annotStep re branch i st c) rest

/-- The annotation pass of serveBoard: run the loop, then assign the final
row spans of the two open spans. -/
def annotate (re : Repo) (branch : String) (cs : List Commit) : List ACommit :=
  let st := annotateLoop re branch 0 initSpanState cs
  let a1 := if 0 ≤ st.masterPRStart then
      modifyAt st.acommits st.masterPRStart.toNat
        (fun a => { a with masterPRRowSpan := (st.acommits.length : Int) - st.masterPRStart })
    else st.acommits
  if 0 ≤ st.backportPRStart then
    modifyAt a1 st.backportPRStart.toNat
      (fun a => { a with backportPRRowSpan := (a1.length : Int) - st.backportPRStart })
  else a1

/-- The reconciliation scope of serveBoard:
`commits := re.masterCommits.truncate(re.branchMergeBases[branch])`. -/
def Repo.scope (re : Repo) (branch : String) : List Commit :=
  re.masterCommits.truncate (re.branchMergeBases branch)

/-! ## C7: the grouping example -/

/-- Mainline commit C1 of the grouping example. -/
def g1 : Commit := ⟨[1], 0, ⟨"x"⟩, "a", "", false⟩

/-- Mainline commit C2 of the grouping example. -/
def g2 : Commit := ⟨[2], 0, ⟨"x"⟩, "b", "", false⟩

/-- Mainline commit C3 of the grouping example. -/
def g3 : Commit := ⟨[3], 0, ⟨"x"⟩, "c", "", false⟩

/-- The grouping-example repository: g1, g2, g3 on mainline, all authored by
review number 10; g1 and g2 carry a backport record for review number 20 on
the target branch; g3 has none. -/
def c7Repo : Repo :=
  { id := 1, githubOwner := "o", githubRepo := "r",
    releaseBranches := ["release-1"],
    masterCommits := ((Commits.empty.insert g1).insert g2).insert g3,
    branchCommits := fun _ => Commits.empty,
    branchMergeBases := fun _ => [],
    masterPRs := fun s => if s == [1] || s == [2] || s == [3] then some ⟨10, true⟩ else none,
    branchPRs := fun m b =>
      if b == "release-1" && (m == messageID g1 || m == messageID g2)
      then some ⟨20, true⟩ else none }

set_option maxRecDepth 100000 in
/-- C7: on the grouping example the engine emits exactly one authoring span,
of length 3, for review number 10 (a single nonzero master row span of 3 at
the first row, every row carrying record number 10) and exactly two backport
spans: one of length 2 for review number 20 and one of length 1 for the
no-backport state. -/
theorem C7_grouping_example :
    (annotate c7Repo "release-1" (c7Repo.scope "release-1")).map
        (fun a => a.masterPRRowSpan) = [3, 0, 0] ∧
    (annotate c7Repo "release-1" (c7Repo.scope "release-1")).map
        (fun a => a.masterPR.map fun m => m.2.number) = [some 10, some 10, some 10] ∧
    (annotate c7Repo "release-1" (c7Repo.scope "release-1")).map
        (fun a => a.backportPRRowSpan) = [2, 0, 1] ∧
    (annotate c7Repo "release-1" (c7Repo.scope "release-1")).map
        (fun a => a.backportPR.map fun p => p.number) = [some 20, some 20, none] := by
  refine ⟨by decide, by decide, by decide, by decide⟩

/-! ## C8: commits with no authoring record -/

/-- First commit of the C8 example, authored by review number 10. -/
def n1 : Commit := ⟨[1], 0, ⟨"x"⟩, "a", "", false⟩

/-- Second commit of the C8 example, carrying no authoring record. -/
def n2 : Commit := ⟨[2], 0, ⟨"x"⟩, "b", "", false⟩

/-- The C8 example repository: two mainline commits, only the first has an
authoring record. -/
def c8Repo : Repo :=
  { id := 1, githubOwner := "o", githubRepo := "r",
    releaseBranches := ["release-1"],
    masterCommits := (Commits.empty.insert n1).insert n2,
    branchCommits := fun _ => Commits.empty,
    branchMergeBases := fun _ => [],
    masterPRs := fun s => if s == [1] then some ⟨10, true⟩ else none,
    branchPRs := fun _ _ => none }

set_option maxRecDepth 100000 in
/-- C8 counterexample: the record-less commit n2 appears in the output, but
it does not form its own one-element authoring span: no new span starts at
the transition to the no-record state.  Instead the preceding record's span
is extended across it (row span 2 at the first row) and n2's own row span
stays 0. -/
theorem C8_span_counterexample :
    (annotate c8Repo "release-1" (c8Repo.scope "release-1")).map
        (fun a => a.masterPRRowSpan) = [2, 0] ∧
    (annotate c8Repo "release-1" (c8Repo.scope "release-1")).map
        (fun a => a.masterPR) = [some ([1], ⟨10, true⟩), none] ∧
    (annotate c8Repo "release-1" (c8Repo.scope "release-1")).map
        (fun a => a.commit) = [n1, n2] := by
  refine ⟨by decide, by decide, by decide⟩

/-! ## Structural lemmas about the annotation loop -/

/-- modifyAt preserves length. -/
theorem modifyAt_length {α : Type} (l : List α) (j : Nat) (f : α → α) :
    (modifyAt l j f).length = l.length := by
  induction l generalizing j with
  | nil => rfl
  | cons a rest ih =>
    cases j with
    | zero => rfl
    | succ j => simp [modifyAt, ih]

/-- modifyAt out of range is the identity. -/
theorem modifyAt_ge {α : Type} (l : List α) (j : Nat) (f : α → α)
    (h : l.length ≤ j) : modifyAt l j f = l := by
  induction l generalizing j with
  | nil => rfl
  | cons a rest ih =>
    cases j with
    | zero => simp at h
    | succ j =>
      simp only [List.length_cons, Nat.succ_le_succ_iff] at h
      simp [modifyAt, ih j h]

/-- Mapping a function that is blind to the modification over modifyAt. -/
theorem modifyAt_map {α β : Type} (l : List α) (j : Nat) (f : α → α) (g : α → β)
    (h : ∀ a, g (f a) = g a) : (modifyAt l j f).map g = l.map g := by
  induction l generalizing j with
  | nil => rfl
  | cons a rest ih =>
    cases j with
    | zero => simp [modifyAt, h]
    | succ j => simp [modifyAt, ih]

/-- Reading modifyAt away from the modified index. -/
theorem modifyAt_get_ne {α : Type} (l : List α) (j k : Nat) (f : α → α)
    (hk : k < l.length) (hk2 : k < (modifyAt l j f).length) (hne : k ≠ j) :
    (modifyAt l j f).get ⟨k, hk2⟩ = l.get ⟨k, hk⟩ := by
  induction l generalizing j k with
  | nil => simp at hk
  | cons a rest ih =>
    cases j with
    | zero =>
      cases k with
      | zero => exact absurd rfl hne
      | succ k => simp [modifyAt]
    | succ j =>
      cases k with
      | zero => simp [modifyAt]
      | succ k =>
        simp only [modifyAt, List.get]
        exact ih j k (by simpa using hk) (by simpa [modifyAt_length] using hk2)
          (fun hkj => hne (by rw [hkj]))

/-- Reading modifyAt at the modified index. -/
theorem modifyAt_get_self {α : Type} (l : List α) (j : Nat) (f : α → α)
    (hj : j < l.length) (hj2 : j < (modifyAt l j f).length) :
    (modifyAt l j f).get ⟨j, hj2⟩ = f (l.get ⟨j, hj⟩) := by
  induction l generalizing j with
  | nil => simp at hj
  | cons a rest ih =>
    cases j with
    | zero => simp [modifyAt]
    | succ j =>
      simp only [modifyAt, List.get]
      exact ih j (by simpa using hj) (by simpa [modifyAt_length] using hj2)

/-- The master row-span assignment does not touch the append-time fields. -/
theorem core_set_master (v : Int) (a : ACommit) :
    ACommit.core { a with masterPRRowSpan := v } = a.core := rfl

/-- The backport row-span assignment does not touch the append-time fields. -/
theorem core_set_backport (v : Int) (a : ACommit) :
    ACommit.core { a with backportPRRowSpan := v } = a.core := rfl

/-- Row-span assignments leave the core projection of the list unchanged
(master variant). -/
theorem map_core_modifyAt_master (l : List ACommit) (j : Nat) (v : Int) :
    (modifyAt l j fun a => { a with masterPRRowSpan := v }).map ACommit.core =
      l.map ACommit.core :=
  modifyAt_map l j _ ACommit.core fun a => core_set_master v a

/-- Row-span assignments leave the core projection of the list unchanged
(backport variant). -/
theorem map_core_modifyAt_backport (l : List ACommit) (j : Nat) (v : Int) :
    (modifyAt l j fun a => { a with backportPRRowSpan := v }).map ACommit.core =
      l.map ACommit.core :=
  modifyAt_map l j _ ACommit.core fun a => core_set_backport v a

/-- The master row-span assignment leaves the core projection unchanged. -/
theorem map_core_stepMasterRows (st : SpanState) (i : Nat) (newM : Bool) :
    (stepMasterRows st i newM).map ACommit.core = st.acommits.map ACommit.core := by
  unfold stepMasterRows
  split
  · exact map_core_modifyAt_master _ _ _
  · rfl

/-- The backport row-span assignment leaves the core projection unchanged. -/
theorem map_core_stepBackportRows (rows : List ACommit) (st : SpanState) (i : Nat)
    (keep : Bool) :
    (stepBackportRows rows st i keep).map ACommit.core = rows.map ACommit.core := by
  unfold stepBackportRows
  split
  · exact map_core_modifyAt_backport _ _ _
  · rfl

/-- One loop iteration appends exactly the append-time fields of the commit
and only retouches row spans of earlier entries. -/
theorem annotStep_core (re : Repo) (branch : String) (i : Nat) (st : SpanState)
    (c : Commit) :
    (annotStep re branch i st c).acommits.map ACommit.core =
      st.acommits.map ACommit.core ++ [coreOf re branch c] := by
  simp only [annotStep]
  simp [map_core_stepMasterRows, map_core_stepBackportRows, ACommit.core, coreOf]

/-- The annotation loop appends the append-time fields of the processed
commits, in order. -/
theorem annotateLoop_core (re : Repo) (branch : String) :
    ∀ (cs : List Commit) (i : Nat) (st : SpanState),
      (annotateLoop re branch i st cs).acommits.map ACommit.core =
        st.acommits.map ACommit.core ++ cs.map (coreOf re branch) := by
  intro cs
  induction cs with
  | nil => intro i st; simp [annotateLoop]
  | cons c rest ih =>
    intro i st
    simp [annotateLoop, ih, annotStep_core]

/-- The append-time fields of the engine's full output are those computed
per commit of the input, in order. -/
theorem annotate_core (re : Repo) (branch : String) (cs : List Commit) :
    (annotate re branch cs).map ACommit.core = cs.map (coreOf re branch) := by
  simp only [annotate]
  split_ifs <;>
    simp [map_core_modifyAt_master, map_core_modifyAt_backport,
      annotateLoop_core, initSpanState]

/-- The engine's output has one entry per input commit. -/
theorem annotate_length (re : Repo) (branch : String) (cs : List Commit) :
    (annotate re branch cs).length = cs.length := by
  have h := congrArg List.length (annotate_core re branch cs)
  simpa using h

/-- The core of the output entry at an index is the per-commit computation
at that index. -/
theorem annotate_get_core (re : Repo) (branch : String) (cs : List Commit) (i : Nat)
    (h : i < cs.length) (h2 : i < (annotate re branch cs).length) :
    ((annotate re branch cs).get ⟨i, h2⟩).core = coreOf re branch (cs.get ⟨i, h⟩) := by
  have hmap := annotate_core re branch cs
  have hsome : ((annotate re branch cs).map ACommit.core)[i]? =
      (cs.map (coreOf re branch))[i]? := by rw [hmap]
  rw [List.getElem?_map, List.getElem?_map] at hsome
  rw [List.getElem?_eq_getElem h2, List.getElem?_eq_getElem h] at hsome
  simpa using hsome

/-- The backport status is nonempty exactly when a backport record was found
by the (fingerprint, branch) lookup or the fingerprint is in the branch's
own commit index. -/
theorem backportStatusOf_ne_empty (re : Repo) (branch : String) (c : Commit) :
    backportStatusOf re branch c ≠ "" ↔
      ((re.branchPRs (messageID c) branch).isSome = true ∨
        (re.branchCommits branch).containsMessageID (messageID c) = true) := by
  unfold backportStatusOf Commits.containsMessageID
  cases hbp : re.branchPRs (messageID c) branch with
  | none =>
    cases hcont : (re.branchCommits branch).messageIDs.contains (messageID c) <;>
      simp [hcont]
  | some p =>
    cases hcont : (re.branchCommits branch).messageIDs.contains (messageID c) <;>
      cases hm : p.merged <;> simp [hcont, hm]

/-- C1: for every commit of the reconciliation scope, the backport record
attached by the engine is exactly the (content fingerprint, target branch)
lookup into the branch review index; it is hash-insensitive (any commit with
the same fingerprint receives the same record); and the commit carries a
nonempty backport status exactly when such a record exists or its
fingerprint appears in the target branch's own commit index. -/
theorem C1_backport_lookup (re : Repo) (branch : String) (i : Nat)
    (h : i < (re.scope branch).length)
    (h2 : i < (annotate re branch (re.scope branch)).length) :
    ((annotate re branch (re.scope branch)).get ⟨i, h2⟩).backportPR =
        re.branchPRs (messageID ((re.scope branch).get ⟨i, h⟩)) branch ∧
    (∀ c : Commit, messageID c = messageID ((re.scope branch).get ⟨i, h⟩) →
      re.branchPRs (messageID c) branch =
        ((annotate re branch (re.scope branch)).get ⟨i, h2⟩).backportPR) ∧
    (((annotate re branch (re.scope branch)).get ⟨i, h2⟩).backportStatus ≠ "" ↔
      ((re.branchPRs (messageID ((re.scope branch).get ⟨i, h⟩)) branch).isSome = true ∨
        (re.branchCommits branch).containsMessageID
          (messageID ((re.scope branch).get ⟨i, h⟩)) = true)) := by
  have hcore := annotate_get_core re branch (re.scope branch) i h h2
  have hbp := congrArg ACore.backportPR hcore
  have hst := congrArg ACore.backportStatus hcore
  simp only [ACommit.core, coreOf] at hbp hst
  refine ⟨hbp, ?_, ?_⟩
  · intro c hc
    rw [hc, hbp]
  · rw [hst]
    exact backportStatusOf_ne_empty re branch _

/-- A one-commit repository used to instantiate C1_backport_lookup. -/
def c1Repo : Repo :=
  { id := 1, githubOwner := "o", githubRepo := "r",
    releaseBranches := ["release-1"],
    masterCommits := Commits.empty.insert ⟨[1], 0, ⟨"x"⟩, "a", "", false⟩,
    branchCommits := fun _ => Commits.empty,
    branchMergeBases := fun _ => [],
    masterPRs := fun s => if s == [1] then some ⟨10, true⟩ else none,
    branchPRs := fun m b =>
      if b == "release-1" && (m == messageID ⟨[1], 0, ⟨"x"⟩, "a", "", false⟩)
      then some ⟨20, true⟩ else none }

set_option maxRecDepth 100000 in
/-- Concrete instantiation of C1_backport_lookup. -/
theorem C1_backport_lookup_witness :
    ((annotate c1Repo "release-1" (c1Repo.scope "release-1")).get ⟨0, by decide⟩).backportPR =
      c1Repo.branchPRs
        (messageID ((c1Repo.scope "release-1").get ⟨0, by decide⟩)) "release-1" :=
  (C1_backport_lookup c1Repo "release-1" 0 (by decide) (by decide)).1

/-- Invariant: an output row whose commit had no authoring record keeps a
zero master row span (row spans are only ever assigned at indices where a
record was present). -/
def MasterSpanProp (l : List ACommit) : Prop :=
  ∀ a ∈ l, a.masterPR = none → a.masterPRRowSpan = 0

/-- Elements of modifyAt are old elements or the image of the element at the
modified index. -/
theorem mem_modifyAt {α : Type} (l : List α) (j : Nat) (f : α → α) (a : α)
    (ha : a ∈ modifyAt l j f) :
    a ∈ l ∨ ∃ b, l[j]? = some b ∧ a = f b := by
  induction l generalizing j with
  | nil => simp [modifyAt] at ha
  | cons x rest ih =>
    cases j with
    | zero =>
      simp only [modifyAt, List.mem_cons] at ha
      rcases ha with ha | ha
      · exact Or.inr ⟨x, by simp, ha⟩
      · exact Or.inl (List.mem_cons_of_mem x ha)
    | succ j =>
      simp only [modifyAt, List.mem_cons] at ha
      rcases ha with ha | ha
      · exact Or.inl (by simp [ha])
      · rcases ih j ha with h | ⟨b, hb, hab⟩
        · exact Or.inl (List.mem_cons_of_mem x h)
        · exact Or.inr ⟨b, by simpa using hb, hab⟩

/-- A projection blind to the modification reads through modifyAt. -/
theorem modifyAt_getElem?_map {α β : Type} (l : List α) (j : Nat) (f : α → α)
    (g : α → β) (hg : ∀ a, g (f a) = g a) (k : Nat) :
    ((modifyAt l j f)[k]?).map g = (l[k]?).map g := by
  induction l generalizing j k with
  | nil => rfl
  | cons x rest ih =>
    cases j with
    | zero =>
      cases k with
      | zero => simp [modifyAt, hg]
      | succ k => simp [modifyAt]
    | succ j =>
      cases k with
      | zero => simp [modifyAt]
      | succ k => simpa [modifyAt] using ih j k

/-- MasterSpanProp survives a backport row-span assignment. -/
theorem masterSpanProp_modify_backport (l : List ACommit) (j : Nat) (v : Int)
    (hp : MasterSpanProp l) :
    MasterSpanProp (modifyAt l j fun a => { a with backportPRRowSpan := v }) := by
  intro a ha hnone
  rcases mem_modifyAt _ _ _ _ ha with h | ⟨b, hb, rfl⟩
  · exact hp a h hnone
  · have hbmem : b ∈ l := by
      have h1 : ∃ h : j < l.length, l[j] = b := List.getElem?_eq_some.mp hb
      rcases h1 with ⟨h1, h2⟩
      exact h2 ▸ List.getElem_mem h1
    exact hp b hbmem hnone

/-- MasterSpanProp survives a master row-span assignment at an index whose
row holds a record. -/
theorem masterSpanProp_modify_master (l : List ACommit) (j : Nat) (v : Int)
    (hsome : ∀ b, l[j]? = some b → b.masterPR.isSome = true)
    (hp : MasterSpanProp l) :
    MasterSpanProp (modifyAt l j fun a => { a with masterPRRowSpan := v }) := by
  intro a ha hnone
  rcases mem_modifyAt _ _ _ _ ha with h | ⟨b, hb, rfl⟩
  · exact hp a h hnone
  · have hs := hsome b hb
    have hbn : b.masterPR = none := hnone
    rw [hbn] at hs
    simp at hs

/-- MasterSpanProp survives appending a fresh row with zero row span. -/
theorem masterSpanProp_append (l : List ACommit) (a : ACommit)
    (hp : MasterSpanProp l) (ha : a.masterPRRowSpan = 0) :
    MasterSpanProp (l ++ [a]) := by
  intro x hx hnone
  rcases List.mem_append.mp hx with h | h
  · exact hp x h hnone
  · simp only [List.mem_singleton] at h
    subst h
    exact ha

/-- A record is present whenever the span-start condition fires. -/
theorem masterIsNew_isSome (lastM mp : Option MPtr)
    (h : masterIsNew lastM mp = true) : mp.isSome = true := by
  cases mp with
  | none => simp [masterIsNew] at h
  | some m => rfl

/-- The row-span assignments preserve length (master variant). -/
theorem stepMasterRows_length (st : SpanState) (i : Nat) (newM : Bool) :
    (stepMasterRows st i newM).length = st.acommits.length := by
  unfold stepMasterRows
  split
  · exact modifyAt_length _ _ _
  · rfl

/-- The row-span assignments preserve length (backport variant). -/
theorem stepBackportRows_length (rows : List ACommit) (st : SpanState) (i : Nat)
    (keep : Bool) :
    (stepBackportRows rows st i keep).length = rows.length := by
  unfold stepBackportRows
  split
  · exact modifyAt_length _ _ _
  · rfl

/-- One loop iteration adds one row. -/
theorem annotStep_length (re : Repo) (branch : String) (i : Nat) (st : SpanState)
    (c : Commit) :
    (annotStep re branch i st c).acommits.length = st.acommits.length + 1 := by
  simp only [annotStep]
  simp [stepMasterRows_length, stepBackportRows_length]

/-- MasterSpanProp survives the master row-span assignment of a step. -/
theorem stepMasterRows_masterSpanProp (st : SpanState) (i : Nat) (newM : Bool)
    (hp : MasterSpanProp st.acommits)
    (hstart : 0 ≤ st.masterPRStart →
      ∀ b, st.acommits[st.masterPRStart.toNat]? = some b → b.masterPR.isSome = true) :
    MasterSpanProp (stepMasterRows st i newM) := by
  unfold stepMasterRows
  split
  · rename_i h1
    simp only [Bool.and_eq_true, decide_eq_true_eq] at h1
    exact masterSpanProp_modify_master _ _ _ (hstart h1.2) hp
  · exact hp

/-- MasterSpanProp survives the backport row-span assignment of a step. -/
theorem stepBackportRows_masterSpanProp (rows : List ACommit) (st : SpanState)
    (i : Nat) (keep : Bool) (hp : MasterSpanProp rows) :
    MasterSpanProp (stepBackportRows rows st i keep) := by
  unfold stepBackportRows
  split
  · exact masterSpanProp_modify_backport _ _ _ hp
  · exact hp

/-- The backport row-span assignment never changes the master record seen at
any index. -/
theorem stepBackportRows_masterPR (rows : List ACommit) (st : SpanState)
    (i : Nat) (keep : Bool) (k : Nat) :
    ((stepBackportRows rows st i keep)[k]?).map (fun a => a.masterPR) =
      (rows[k]?).map (fun a => a.masterPR) := by
  unfold stepBackportRows
  split
  · exact modifyAt_getElem?_map rows st.backportPRStart.toNat
      (fun a => { a with backportPRRowSpan := (i : Int) - st.backportPRStart })
      (fun a => a.masterPR) (fun a => rfl) k
  · rfl

/-- Reading an append at the length of the left part. -/
theorem getElem?_append_len {α : Type} (l : List α) (x : α) (j : Nat)
    (hj : j = l.length) : (l ++ [x])[j]? = some x := by
  subst hj
  induction l with
  | nil => rfl
  | cons a rest ih => simp [ih]

/-- Reading an append inside the left part. -/
theorem getElem?_append_lt {α : Type} (l1 l2 : List α) (j : Nat)
    (hj : j < l1.length) : (l1 ++ l2)[j]? = l1[j]? := by
  induction l1 generalizing j with
  | nil => simp at hj
  | cons a rest ih =>
    cases j with
    | zero => simp
    | succ j => simpa using ih j (by simpa using hj)

/-- If no new span starts, the master row-span assignment is skipped. -/
theorem stepMasterRows_false (st : SpanState) (i : Nat) :
    stepMasterRows st i false = st.acommits := by
  simp [stepMasterRows]

/-- The loop invariant: record-less rows keep zero master row spans, and an
open master span starts at a row holding a record. -/
def SpanStateWF (st : SpanState) : Prop :=
  MasterSpanProp st.acommits ∧
  (0 ≤ st.masterPRStart →
    ∃ b, st.acommits[st.masterPRStart.toNat]? = some b ∧ b.masterPR.isSome = true)

/-- One loop iteration preserves the invariant. -/
theorem annotStep_wf (re : Repo) (branch : String) (i : Nat) (st : SpanState)
    (c : Commit) (hwf : SpanStateWF st) (hlen : st.acommits.length = i) :
    SpanStateWF (annotStep re branch i st c) := by
  obtain ⟨hp, hstart⟩ := hwf
  have hstart2 : 0 ≤ st.masterPRStart →
      ∀ b, st.acommits[st.masterPRStart.toNat]? = some b → b.masterPR.isSome = true := by
    intro h0 b hb
    obtain ⟨b0, hb0, hs0⟩ := hstart h0
    rw [hb0] at hb
    cases hb
    exact hs0
  constructor
  · simp only [annotStep]
    exact masterSpanProp_append _ _
      (stepBackportRows_masterSpanProp _ _ _ _
        (stepMasterRows_masterSpanProp st i _ hp hstart2)) rfl
  · by_cases hnm : masterIsNew st.lastMasterPR (masterLookup re c) = true
    · intro _
      simp only [annotStep, hnm, if_true]
      refine ⟨⟨c, backportStatusOf re branch c, masterLookup re c, 0,
        re.branchPRs (messageID c) branch, 0⟩, ?_, masterIsNew_isSome _ _ hnm⟩
      have hl2 : (stepBackportRows (stepMasterRows st i true) st i
          (backportKeep (masterLookup re c) (masterLookup re c) st.lastBackportPR
            (re.branchPRs (messageID c) branch))).length = i := by
        rw [stepBackportRows_length, stepMasterRows_length, hlen]
      refine getElem?_append_len _ _ _ ?_
      rw [show ((i : Int).toNat) = i from rfl]
      exact hl2.symm
    · have hnm' : masterIsNew st.lastMasterPR (masterLookup re c) = false := by
        simpa using hnm
      intro h0
      simp only [annotStep, hnm', Bool.false_eq_true, if_false] at h0 ⊢
      obtain ⟨b, hb, hs⟩ := hstart h0
      have hidx : st.masterPRStart.toNat < st.acommits.length := by
        by_contra hge
        rw [List.getElem?_eq_none (Nat.le_of_not_lt hge)] at hb
        exact Option.noConfusion hb
      have hl1 : (stepMasterRows st i false) = st.acommits := stepMasterRows_false st i
      have hmap := stepBackportRows_masterPR (stepMasterRows st i false) st i
        (backportKeep st.lastMasterPR (masterLookup re c) st.lastBackportPR
          (re.branchPRs (messageID c) branch)) st.masterPRStart.toNat
      rw [hl1, hb] at hmap
      have hidx2 : st.masterPRStart.toNat <
          (stepBackportRows (stepMasterRows st i false) st i
            (backportKeep st.lastMasterPR (masterLookup re c) st.lastBackportPR
              (re.branchPRs (messageID c) branch))).length := by
        rw [stepBackportRows_length, stepMasterRows_length]
        exact hidx
      rw [hl1] at hidx2 ⊢
      rw [getElem?_append_lt _ _ _ hidx2]
      cases hres : (stepBackportRows st.acommits st i
          (backportKeep st.lastMasterPR (masterLookup re c) st.lastBackportPR
            (re.branchPRs (messageID c) branch)))[st.masterPRStart.toNat]? with
      | none => rw [hres] at hmap; exact Option.noConfusion hmap
      | some b2 =>
        rw [hres] at hmap
        refine ⟨b2, rfl, ?_⟩
        have hbb : b2.masterPR = b.masterPR := by simpa using hmap
        rw [hbb]
        exact hs

/-- The loop preserves the invariant across the whole commit list. -/
theorem annotateLoop_wf (re : Repo) (branch : String) :
    ∀ (cs : List Commit) (i : Nat) (st : SpanState),
      SpanStateWF st → st.acommits.length = i →
      SpanStateWF (annotateLoop re branch i st cs) := by
  intro cs
  induction cs with
  | nil =>
    intro i st hwf _
    simpa [annotateLoop] using hwf
  | cons c rest ih =>
    intro i st hwf hlen
    exact ih (i + 1) _ (annotStep_wf re branch i st c hwf hlen)
      (by rw [annotStep_length, hlen])

/-- Every record-less row of the engine's output has a zero master row
span. -/
theorem annotate_masterSpanProp (re : Repo) (branch : String) (cs : List Commit) :
    MasterSpanProp (annotate re branch cs) := by
  have hwf : SpanStateWF (annotateLoop re branch 0 initSpanState cs) := by
    refine annotateLoop_wf re branch cs 0 initSpanState ⟨?_, ?_⟩ rfl
    · intro a ha
      simp [initSpanState] at ha
    · intro h0
      exact absurd h0 (by decide)
  obtain ⟨hp, hstart⟩ := hwf
  have hsome : 0 ≤ (annotateLoop re branch 0 initSpanState cs).masterPRStart →
      ∀ b, (annotateLoop re branch 0 initSpanState
          cs).acommits[(annotateLoop re branch 0 initSpanState
          cs).masterPRStart.toNat]? = some b → b.masterPR.isSome = true := by
    intro h0 b hb
    obtain ⟨b0, hb0, hs0⟩ := hstart h0
    rw [hb0] at hb
    cases hb
    exact hs0
  simp only [annotate]
  split_ifs with h1 h2 h2
  · exact masterSpanProp_modify_backport _ _ _
      (masterSpanProp_modify_master _ _ _ (hsome h2) hp)
  · exact masterSpanProp_modify_backport _ _ _ hp
  · exact masterSpanProp_modify_master _ _ _ (hsome h2) hp
  · exact hp

/-- C8 amended: a commit of the reconciliation scope with no authoring
review record still appears in the engine's output, at its position and
with no record attached, but it does not form its own one-element span: no
authoring span ever starts at it and its own row span stays zero (the
preceding record's span is the one stretched across it). -/
theorem C8_no_record_amended (re : Repo) (branch : String) (i : Nat)
    (h : i < (re.scope branch).length)
    (h2 : i < (annotate re branch (re.scope branch)).length)
    (hnone : re.masterPRs ((re.scope branch).get ⟨i, h⟩).sha = none) :
    (annotate re branch (re.scope branch)).length = (re.scope branch).length ∧
    ((annotate re branch (re.scope branch)).get ⟨i, h2⟩).commit =
      (re.scope branch).get ⟨i, h⟩ ∧
    ((annotate re branch (re.scope branch)).get ⟨i, h2⟩).masterPR = none ∧
    ((annotate re branch (re.scope branch)).get ⟨i, h2⟩).masterPRRowSpan = 0 := by
  have hcore := annotate_get_core re branch (re.scope branch) i h h2
  have hcommit := congrArg ACore.commit hcore
  have hmaster := congrArg ACore.masterPR hcore
  simp only [ACommit.core, coreOf] at hcommit hmaster
  have hnone2 : re.masterPRs ((re.scope branch)[i]).sha = none := hnone
  have hmnone : ((annotate re branch (re.scope branch)).get ⟨i, h2⟩).masterPR = none := by
    rw [hmaster]
    simp [masterLookup, hnone2]
  refine ⟨annotate_length re branch _, hcommit, hmnone, ?_⟩
  exact annotate_masterSpanProp re branch _ _ (List.get_mem _ _ h2) hmnone

set_option maxRecDepth 100000 in
/-- Concrete instantiation of C8_no_record_amended at the record-less commit
of the C8 example. -/
theorem C8_no_record_amended_witness :
    ((annotate c8Repo "release-1" (c8Repo.scope "release-1")).get
        ⟨1, by decide⟩).masterPRRowSpan = 0 :=
  (C8_no_record_amended c8Repo "release-1" 1 (by decide) (by decide) (by decide)).2.2.2

/-! ## The sync controller (syncRepo, isPRUpToDate, syncPR)

The GitHub API, the relational store and `crdb.ExecuteTx` are external
collaborators; they are modelled as pure data.  A fetched review record is a
`GHPR` (the fields read off `*github.PullRequest`); the store is the pair of
the `prs` and `pr_commits` tables as row lists keyed by their natural keys;
one transaction is one function from the store state to the new store state
plus the list of write statements it executed. -/

/-- The fields of a fetched review record used by the sync controller. -/
structure GHPR where
  id : Int
  number : Int
  title : String
  body : String
  state : String
  mergedAt : Option Int
  baseSHA : String
  baseRef : String
  login : String
  updatedAt : Int
deriving DecidableEq, Repr

/-- A row of the `prs` table. -/
structure PRRow where
  id : Int
  repoId : Int
  number : Int
  title : String
  body : String
  isOpen : Bool
  mergedAt : Option Int
  baseSHA : String
  baseBranch : String
  authorUsername : String
  updatedAt : Int
deriving DecidableEq, Repr

/-- A row of the `pr_commits` table. -/
structure PRCommitRow where
  prId : Int
  sha : List Nat
  title : String
  body : String
  messageId : List Nat
  authorEmail : String
  ordering : Nat
deriving DecidableEq, Repr

/-- The persistent store visible to one sync pass. -/
structure Store where
  prs : List PRRow
  prCommits : List PRCommitRow
deriving DecidableEq, Repr

/-- `SELECT updated_at FROM prs WHERE id = $1` (row lookup by id). -/
def Store.lookupPR (st : Store) (id : Int) : Option PRRow :=
  st.prs.find? fun r => r.id == id

/-- `isPRUpToDate`: a record is up to date when a row for its id exists and
its stored update timestamp equals the fetched one; a missing row
(sql.ErrNoRows) reports not up to date. -/
def isPRUpToDate (st : Store) (p : GHPR) : Bool :=
  match st.lookupPR p.id with
  | none => false
  | some r => r.updatedAt == p.updatedAt

/-- One write statement issued against the store. -/
inductive WriteOp where
  | upsertPR (row : PRRow)
  | deletePRCommits (prId : Int)
  | insertPRCommit (row : PRCommitRow)
deriving DecidableEq, Repr

/-- The row written by syncPR's `UPSERT INTO prs ...`. -/
def prRowOf (repoId : Int) (p : GHPR) : PRRow :=
  { id := p.id, repoId := repoId, number := p.number, title := p.title,
    body := p.body, isOpen := p.state == "open", mergedAt := p.mergedAt,
    baseSHA := p.baseSHA, baseBranch := p.baseRef,
    authorUsername := p.login, updatedAt := p.updatedAt }

/-- The rows written by syncPR's `INSERT INTO pr_commits ...` loop, one per
loaded commit, with its position as ordering. -/
def commitRowsOf (p : GHPR) (cs : List Commit) : List PRCommitRow :=
  cs.enum.map fun ic =>
    { prId := p.id, sha := ic.2.sha, title := ic.2.title, body := ic.2.body,
      messageId := messageID ic.2, authorEmail := ic.2.author.Email,
      ordering := ic.1 }

/-- `UPSERT INTO prs`: replace the row with the same id, or insert. -/
def Store.upsertPR (st : Store) (row : PRRow) : Store :=
  { st with prs :=
      if st.prs.any fun r => r.id == row.id then
        st.prs.map fun r => if r.id == row.id then row else r
      else st.prs ++ [row] }

/-- `DELETE FROM pr_commits WHERE pr_id = $1`. -/
def Store.deletePRCommits (st : Store) (id : Int) : Store :=
  { st with prCommits := st.prCommits.filter fun r => !(r.prId == id) }

/-- The `INSERT INTO pr_commits` loop. -/
def Store.insertPRCommits (st : Store) (rows : List PRCommitRow) : Store :=
  { st with prCommits := st.prCommits ++ rows }

/-- `syncPR`: the commits were already loaded outside the transaction; the
transaction re-checks `isPRUpToDate` against the store it writes to, does
nothing when up to date, and otherwise upserts the review row, deletes the
stored constituent-commit rows of that record and re-inserts the freshly
loaded list.  The result is the new store state and the writes issued. -/
def syncPR (repoId : Int) (st : Store) (p : GHPR) (loaded : List Commit) :
    Store × List WriteOp :=
  if isPRUpToDate st p then (st, [])
  else
    let row := prRowOf repoId p
    let rows := commitRowsOf p loaded
    (((st.upsertPR row).deletePRCommits p.id).insertPRCommits rows,
      WriteOp.upsertPR row :: WriteOp.deletePRCommits p.id ::
        rows.map WriteOp.insertPRCommit)

/-- The pagination loop of syncRepo.  `api` maps a page number to the
fetched records and the next-page token (0 when exhausted); the result is
the accumulated records and the list of page numbers requested, in order.
The first argument is fuel bounding the walk (the Go loop has no bound of
its own).  When a page is empty yet a next page exists the Go code would
panic on `prs[len(prs)-1]`; the model stops, which likewise issues no
further request. -/
def pageLoop (api : Nat → List GHPR × Nat) (st : Store) :
    Nat → Nat → List GHPR × List Nat
  | 0, _ => ([], [])
  | fuel + 1, page =>
    let prs := (api page).1
    let next := (api page).2
    if next = 0 then (prs, [page])
    else
      match prs.getLast? with
      | none => (prs, [page])
      | some lastPR =>
        if isPRUpToDate st lastPR then (prs, [page])
        else
          let rest := pageLoop api st fuel next
          (prs ++ rest.1, page :: rest.2)

/-- The per-record write phase of one sync pass, processing the collected
records in order: each record runs its own syncPR transaction against the
store left by the previous one, and the issued writes accumulate. -/
def syncPass (repoId : Int) : Store → List (GHPR × List Commit) →
    Store × List WriteOp
  | st, [] => (st, [])
  | st, it :: rest =>
    let r1 := syncPR repoId st it.1 it.2
    let r2 := syncPass repoId r1.1 rest
    (r2.1, r1.2 ++ r2.2)

/-! ## Lemmas about the sync controller -/

/-- Filtering with a predicate every element fails yields the empty list. -/
theorem filter_none_of_all {α : Type} (l : List α) (q : α → Bool)
    (h : ∀ a ∈ l, q a = false) : l.filter q = [] := by
  induction l with
  | nil => rfl
  | cons a rest ih =>
    have ha := h a (by simp)
    simp [ha, ih fun x hx => h x (by simp [hx])]

/-- Filtering with a predicate every element passes keeps the list. -/
theorem filter_all_of_all {α : Type} (l : List α) (q : α → Bool)
    (h : ∀ a ∈ l, q a = true) : l.filter q = l := by
  induction l with
  | nil => rfl
  | cons a rest ih =>
    have ha := h a (by simp)
    simp [ha, ih fun x hx => h x (by simp [hx])]

/-- After filtering out the matching rows, none match. -/
theorem filter_pos_of_filter_neg {α : Type} (l : List α) (q : α → Bool) :
    (l.filter fun a => !(q a)).filter q = [] := by
  induction l with
  | nil => rfl
  | cons a rest ih => cases hq : q a <;> simp [hq, ih]

/-- Filtering out the matching rows twice is the same as once. -/
theorem filter_neg_idem {α : Type} (l : List α) (q : α → Bool) :
    ((l.filter fun a => !(q a)).filter fun a => !(q a)) =
      l.filter fun a => !(q a) := by
  induction l with
  | nil => rfl
  | cons a rest ih => cases hq : q a <;> simp [hq, ih]

/-- Every constituent-commit row written for a record carries its id. -/
theorem commitRowsOf_prId (p : GHPR) (cs : List Commit) :
    ∀ r ∈ commitRowsOf p cs, r.prId = p.id := by
  intro r hr
  simp only [commitRowsOf, List.mem_map] at hr
  obtain ⟨ic, _, rfl⟩ := hr
  rfl

/-- Replacing the row of an id makes lookups of that id find it. -/
theorem find?_map_replace (l : List PRRow) (row : PRRow)
    (hany : (l.any fun r => r.id == row.id) = true) :
    ((l.map fun r => if r.id == row.id then row else r).find?
      fun r => r.id == row.id) = some row := by
  induction l with
  | nil => simp at hany
  | cons r rest ih =>
    by_cases hr : (r.id == row.id) = true
    · simp [List.find?, hr, -List.find?_map]
    · have hr2 : (r.id == row.id) = false := by simpa using hr
      simp only [List.any_cons, hr2, Bool.false_or] at hany
      simp [List.find?, hr2, -List.find?_map]
      simpa using ih hany

/-- Appending the row of a fresh id makes lookups of that id find it. -/
theorem find?_append_fresh (l : List PRRow) (row : PRRow)
    (hnone : (l.any fun r => r.id == row.id) = false) :
    ((l ++ [row]).find? fun r => r.id == row.id) = some row := by
  induction l with
  | nil => simp [List.find?]
  | cons r rest ih =>
    simp only [List.any_cons, Bool.or_eq_false_iff] at hnone
    simp [List.find?, hnone.1, ih hnone.2]

/-- The upsert makes the written row visible under its id. -/
theorem lookupPR_upsertPR_self (st : Store) (row : PRRow) :
    (st.upsertPR row).lookupPR row.id = some row := by
  unfold Store.upsertPR Store.lookupPR
  split
  · rename_i hany
    exact find?_map_replace st.prs row hany
  · rename_i hany
    exact find?_append_fresh st.prs row (by simpa using hany)

/-- Replacing the row of another id leaves a lookup unchanged. -/
theorem find?_map_replace_ne (l : List PRRow) (row : PRRow) (q : Int)
    (hq : q ≠ row.id) :
    ((l.map fun r => if r.id == row.id then row else r).find?
      fun r => r.id == q) = l.find? fun r => r.id == q := by
  have hrowq : (row.id == q) = false := by
    simp only [beq_eq_false_iff_ne, ne_eq]
    exact fun h => hq h.symm
  induction l with
  | nil => rfl
  | cons r rest ih =>
    by_cases hr : (r.id == row.id) = true
    · have hr2 : r.id = row.id := by simpa using hr
      have hrq : (r.id == q) = false := by rw [hr2]; exact hrowq
      simp [List.find?, hr, hrq, hrowq, -List.find?_map]
      simpa using ih
    · have hr2 : (r.id == row.id) = false := by simpa using hr
      by_cases hrq : (r.id == q) = true
      · simp [List.find?, hr2, hrq, -List.find?_map]
      · have hrq2 : (r.id == q) = false := by simpa using hrq
        simp [List.find?, hr2, hrq2, -List.find?_map]
        simpa using ih

/-- Appending the row of another id leaves a lookup unchanged. -/
theorem find?_append_ne (l : List PRRow) (row : PRRow) (q : Int)
    (hq : q ≠ row.id) :
    ((l ++ [row]).find? fun r => r.id == q) = l.find? fun r => r.id == q := by
  have hrowq : (row.id == q) = false := by
    simp only [beq_eq_false_iff_ne, ne_eq]
    exact fun h => hq h.symm
  induction l with
  | nil => simp [List.find?, hrowq]
  | cons r rest ih =>
    by_cases hrq : (r.id == q) = true
    · simp [List.find?, hrq]
    · have hrq2 : (r.id == q) = false := by simpa using hrq
      simp [List.find?, hrq2, ih]

/-- The upsert leaves lookups of other ids unchanged. -/
theorem lookupPR_upsertPR_ne (st : Store) (row : PRRow) (q : Int)
    (hq : q ≠ row.id) :
    (st.upsertPR row).lookupPR q = st.lookupPR q := by
  unfold Store.upsertPR Store.lookupPR
  split
  · exact find?_map_replace_ne st.prs row q hq
  · exact find?_append_ne st.prs row q hq

/-- The up-to-date check depends only on the stored row of the record's id. -/
theorem isPRUpToDate_congr (st1 st2 : Store) (p : GHPR)
    (h : st1.lookupPR p.id = st2.lookupPR p.id) :
    isPRUpToDate st1 p = isPRUpToDate st2 p := by
  unfold isPRUpToDate
  rw [h]

/-- After its transaction, a record checks up to date. -/
theorem syncPR_uptodate_self (repoId : Int) (st : Store) (p : GHPR)
    (loaded : List Commit) :
    isPRUpToDate (syncPR repoId st p loaded).1 p = true := by
  by_cases h : isPRUpToDate st p = true
  · unfold syncPR
    rw [if_pos h]
    exact h
  · unfold syncPR
    rw [if_neg h]
    show isPRUpToDate
      (((st.upsertPR (prRowOf repoId p)).deletePRCommits p.id).insertPRCommits
        (commitRowsOf p loaded)) p = true
    unfold isPRUpToDate
    have hl : (((st.upsertPR (prRowOf repoId p)).deletePRCommits p.id).insertPRCommits
        (commitRowsOf p loaded)).lookupPR p.id =
        (st.upsertPR (prRowOf repoId p)).lookupPR p.id := rfl
    rw [hl]
    rw [show p.id = (prRowOf repoId p).id from rfl, lookupPR_upsertPR_self]
    simp [prRowOf]

/-- A record's transaction leaves the stored rows of other ids unchanged. -/
theorem syncPR_lookup_other (repoId : Int) (st : Store) (p : GHPR)
    (loaded : List Commit) (q : Int) (hq : q ≠ p.id) :
    (syncPR repoId st p loaded).1.lookupPR q = st.lookupPR q := by
  by_cases h : isPRUpToDate st p = true
  · unfold syncPR
    rw [if_pos h]
  · unfold syncPR
    rw [if_neg h]
    show (((st.upsertPR (prRowOf repoId p)).deletePRCommits p.id).insertPRCommits
        (commitRowsOf p loaded)).lookupPR q = st.lookupPR q
    have hl : (((st.upsertPR (prRowOf repoId p)).deletePRCommits p.id).insertPRCommits
        (commitRowsOf p loaded)).lookupPR q =
        (st.upsertPR (prRowOf repoId p)).lookupPR q := rfl
    rw [hl]
    exact lookupPR_upsertPR_ne st _ q hq

/-- A pass leaves the stored rows of ids it does not touch unchanged. -/
theorem syncPass_lookup_not_mem (repoId : Int) :
    ∀ (items : List (GHPR × List Commit)) (st : Store) (q : Int),
      (∀ it ∈ items, it.1.id ≠ q) →
      (syncPass repoId st items).1.lookupPR q = st.lookupPR q := by
  intro items
  induction items with
  | nil => intro st q _; rfl
  | cons it rest ih =>
    intro st q hq
    simp only [syncPass]
    rw [ih _ q fun x hx => hq x (by simp [hx])]
    exact syncPR_lookup_other repoId st it.1 it.2 q
      (fun he => hq it (by simp) he.symm)

/-- After a pass over records with pairwise distinct ids, every processed
record checks up to date. -/
theorem syncPass_all_uptodate (repoId : Int) :
    ∀ (items : List (GHPR × List Commit)) (st : Store),
      ((items.map fun it => it.1.id).Nodup) →
      ∀ it ∈ items, isPRUpToDate (syncPass repoId st items).1 it.1 = true := by
  intro items
  induction items with
  | nil => intro st _ it hit; cases hit
  | cons x rest ih =>
    intro st hnd it hit
    simp only [List.map_cons, List.nodup_cons] at hnd
    obtain ⟨hx, hnd2⟩ := hnd
    rcases List.mem_cons.mp hit with heq | hit2
    · subst heq
      simp only [syncPass]
      have hpres := syncPass_lookup_not_mem repoId rest
        (syncPR repoId st it.1 it.2).1 it.1.id
        (fun y hy he => hx (by rw [← he]; exact List.mem_map_of_mem _ hy))
      rw [isPRUpToDate_congr _ _ _ hpres]
      exact syncPR_uptodate_self repoId st it.1 it.2
    · simp only [syncPass]
      exact ih (syncPR repoId st x.1 x.2).1 hnd2 it hit2

/-- A pass over records that all check up to date writes nothing and leaves
the store unchanged. -/
theorem syncPass_of_uptodate (repoId : Int) :
    ∀ (items : List (GHPR × List Commit)) (st : Store),
      (∀ it ∈ items, isPRUpToDate st it.1 = true) →
      syncPass repoId st items = (st, []) := by
  intro items
  induction items with
  | nil => intro st _; rfl
  | cons x rest ih =>
    intro st hup
    have hx := hup x (by simp)
    have h1 : syncPR repoId st x.1 x.2 = (st, []) := by
      unfold syncPR
      rw [if_pos hx]
    simp only [syncPass, h1]
    rw [ih st fun y hy => hup y (by simp [hy])]
    rfl

/-- C4: if the remote-update timestamp of the last record on a page equals
the stored value for that record's id, the pagination loop requests that
page and no further page. -/
theorem C4_pagination_early_stop (api : Nat → List GHPR × Nat) (st : Store)
    (fuel page : Nat) (lastPR : GHPR)
    (hlast : (api page).1.getLast? = some lastPR)
    (hupd : isPRUpToDate st lastPR = true) :
    (pageLoop api st (fuel + 1) page).2 = [page] := by
  simp only [pageLoop]
  split
  · rfl
  · rw [hlast]
    simp [hupd]

/-- The remote listing used to instantiate C4: every page reports a next
page, and its single record is already stored with the same timestamp. -/
def c4Api : Nat → List GHPR × Nat :=
  fun _ => ([⟨7, 1, "t", "", "open", none, "s", "master", "u", 5⟩], 2)

/-- The store used to instantiate C4, holding record 7 at timestamp 5. -/
def c4Store : Store :=
  ⟨[⟨7, 1, 1, "t", "", true, none, "s", "master", "u", 5⟩], []⟩

/-- Concrete instantiation of C4_pagination_early_stop: page 1 is fetched
and page 2, though advertised, is never requested. -/
theorem C4_pagination_early_stop_witness :
    (pageLoop c4Api c4Store 6 1).2 = [1] :=
  C4_pagination_early_stop c4Api c4Store 5 1
    ⟨7, 1, "t", "", "open", none, "s", "master", "u", 5⟩ (by decide) (by decide)

/-- C5: the transaction of one record re-runs the up-to-date check on the
state it writes to; when up to date it issues no writes and leaves the
store untouched, and otherwise it issues exactly the upsert of the review
row, the deletion of the record's stored constituent-commit rows and the
re-insertion of the freshly loaded list, so that afterwards the rows
stored for the record are exactly the loaded ones, other records' rows are
untouched, and the review row reflects the fetched record. -/
theorem C5_sync_transaction (repoId : Int) (st : Store) (p : GHPR)
    (loaded : List Commit) :
    (isPRUpToDate st p = true → syncPR repoId st p loaded = (st, [])) ∧
    (isPRUpToDate st p = false →
      (syncPR repoId st p loaded).2 =
        WriteOp.upsertPR (prRowOf repoId p) :: WriteOp.deletePRCommits p.id ::
          (commitRowsOf p loaded).map WriteOp.insertPRCommit ∧
      ((syncPR repoId st p loaded).1.prCommits.filter fun r => r.prId == p.id) =
        commitRowsOf p loaded ∧
      ((syncPR repoId st p loaded).1.prCommits.filter fun r => !(r.prId == p.id)) =
        (st.prCommits.filter fun r => !(r.prId == p.id)) ∧
      (syncPR repoId st p loaded).1.lookupPR p.id = some (prRowOf repoId p)) := by
  constructor
  · intro h
    unfold syncPR
    rw [if_pos h]
  · intro h
    have h2 : ¬isPRUpToDate st p = true := by simp [h]
    unfold syncPR
    rw [if_neg h2]
    refine ⟨rfl, ?_, ?_, ?_⟩
    · show (((st.prCommits.filter fun r => !(r.prId == p.id)) ++
          commitRowsOf p loaded).filter fun r => r.prId == p.id) =
        commitRowsOf p loaded
      rw [List.filter_append, filter_pos_of_filter_neg, List.nil_append]
      exact filter_all_of_all _ _ fun r hr => by
        simp [commitRowsOf_prId p loaded r hr]
    · show (((st.prCommits.filter fun r => !(r.prId == p.id)) ++
          commitRowsOf p loaded).filter fun r => !(r.prId == p.id)) =
        (st.prCommits.filter fun r => !(r.prId == p.id))
      rw [List.filter_append, filter_neg_idem,
        filter_none_of_all (commitRowsOf p loaded) _ fun r hr => by
          simp [commitRowsOf_prId p loaded r hr],
        List.append_nil]
    · show (((st.upsertPR (prRowOf repoId p)).deletePRCommits p.id).insertPRCommits
          (commitRowsOf p loaded)).lookupPR p.id = some (prRowOf repoId p)
      have hl : (((st.upsertPR (prRowOf repoId p)).deletePRCommits p.id).insertPRCommits
          (commitRowsOf p loaded)).lookupPR p.id =
          (st.upsertPR (prRowOf repoId p)).lookupPR p.id := rfl
      rw [hl, show p.id = (prRowOf repoId p).id from rfl, lookupPR_upsertPR_self]

/-- The fetched record used to instantiate C5 and C6. -/
def c5PR : GHPR := ⟨7, 1, "t", "bo", "open", none, "s", "master", "u", 5⟩

/-- The loaded constituent commit used to instantiate C5 and C6. -/
def c5Commit : Commit := ⟨[1], 0, ⟨"e"⟩, "t", "bo", false⟩

/-- Concrete instantiation of C5_sync_transaction against the empty store,
where the record is stale: the stored rows for it end up exactly the loaded
list. -/
theorem C5_sync_transaction_witness :
    ((syncPR 1 ⟨[], []⟩ c5PR [c5Commit]).1.prCommits.filter
      fun r => r.prId == c5PR.id) = commitRowsOf c5PR [c5Commit] :=
  ((C5_sync_transaction 1 ⟨[], []⟩ c5PR [c5Commit]).2 (by decide)).2.1

/-- C6: two consecutive passes over the same fetched records (one listing
per record, so pairwise distinct ids) issue zero write operations on the
second pass. -/
theorem C6_sync_idempotent (repoId : Int) (st : Store)
    (items : List (GHPR × List Commit))
    (hnd : (items.map fun it => it.1.id).Nodup) :
    (syncPass repoId (syncPass repoId st items).1 items).2 = [] := by
  have hall := syncPass_all_uptodate repoId items st hnd
  rw [syncPass_of_uptodate repoId items _ hall]

/-- Concrete instantiation of C6_sync_idempotent: the second pass over one
record writes nothing. -/
theorem C6_sync_idempotent_witness :
    (syncPass 1 (syncPass 1 ⟨[], []⟩ [(c5PR, [c5Commit])]).1 [(c5PR, [c5Commit])]).2 = [] :=
  C6_sync_idempotent 1 ⟨[], []⟩ [(c5PR, [c5Commit])] (by decide)
